import Mathlib

/-!
Verification of the key-rotation proxy (sources: api_key_manager.py,
proxy_server.py, incoming_key_manager.py).

Python strings are modelled as Lean `String` (or `List Char` where path
slicing is involved), dictionaries as association lists in iteration
order, byte bodies as `String`, and wall-clock time as a logical `Nat`
timestamp passed explicitly.
-/

namespace ApiKeyManager

/-- Embeds `ApiKeyManager.__init__` (src/api_key_manager.py, lines 10-23):
the deque is built from `keys.values()` in mapping iteration order, and
`ValueError("No API keys provided.")` is raised when it is empty. -/
def init (keys : List (String × String)) : Except String (List String) :=
  let ks := keys.map Prod.snd
  if ks.isEmpty then Except.error "No API keys provided." else Except.ok ks

/-- Embeds `ApiKeyManager.get_next_key` (lines 25-36): `rotate(-1)` moves the
deque head to the back and the method returns the element now at index `-1`,
i.e. the old head.  On an empty deque indexing would raise, modelled as
`none` (the constructor forbids the empty pool). -/
def get_next_key : List String → Option (String × List String)
  | [] => none
  | k :: ks => some (k, ks ++ [k])

/-- Embeds `ApiKeyManager.get_key_count` (lines 38-45). -/
def get_key_count (ks : List String) : Nat := ks.length

/-- Running `n` sequential `get_next_key` calls: the list of returned keys
and the final deque state. -/
def runKeys : List String → Nat → List String × List String
  | ks, 0 => ([], ks)
  | ks, n + 1 =>
    match get_next_key ks with
    | none => ([], ks)
    | some (k, ks') =>
      let r := runKeys ks' n
      (k :: r.1, r.2)

end ApiKeyManager

/-- Modelled from the spec: a KeyPool credential (spec section 3), an opaque
secret together with the mutable state `available | cooling-until t`
(`coolingUntil = none` means available). The cooldown-capable manager that
`proxy_server.py` drives (`get_current_key`, `mark_key_rate_limited`,
`mark_key_success`, constructor parameter `cooldown_seconds`) is absent from
src/, so it is modelled from spec section 4.1. -/
structure Credential where
  secret : String
  coolingUntil : Option Nat
deriving Repr, DecidableEq

/-- Modelled from the spec: the KeyPool state (spec section 3): an ordered
credential list, a rotation cursor, and a uniform cooldown duration. -/
structure KeyPool where
  keys : List Credential
  cursor : Nat
  cooldown : Nat
deriving Repr, DecidableEq

namespace KeyPool

/-- Modelled from the spec: a credential cooling until `u` is ineligible
while the current time is `< u` and eligible again at `u` (spec section 3
invariants). -/
def available (c : Credential) (t : Nat) : Bool :=
  match c.coolingUntil with
  | none => true
  | some u => u ≤ t

/-- Scan up to `fuel` positions `start, start+1, ...` (mod pool size) for an
available credential, returning its index and value. -/
def findAvailAux (ks : List Credential) (t : Nat) : Nat → Nat → Option (Nat × Credential)
  | _, 0 => none
  | start, m + 1 =>
    let j := start % ks.length
    match ks.get? j with
    | none => none
    | some c => if available c t then some (j, c) else findAvailAux ks t (start + 1) m

/-- Modelled from the spec: `selectKey`'s cursor walk (spec section 4.1):
advance the cursor one position, then keep advancing (wrapping) past cooling
credentials until an available one is found or a full cycle completes. -/
def findAvail (p : KeyPool) (t : Nat) : Option (Nat × Credential) :=
  findAvailAux p.keys t (p.cursor + 1) p.keys.length

/-- Modelled from the spec: one non-blocking `selectKey` evaluation at time
`t`: `none` when a full cycle finds no available credential. -/
def selectKeyAt (p : KeyPool) (t : Nat) : Option (String × KeyPool) :=
  match findAvail p t with
  | none => none
  | some (j, c) => some (c.secret, { p with cursor := j })

/-- Modelled from the spec: the earliest `cooling-until` among all
credentials (spec section 4.1), the time a blocked `selectKey` waits for. -/
def earliestExpiry (p : KeyPool) : Option Nat :=
  (p.keys.filterMap Credential.coolingUntil).min?

/-- Modelled from the spec: `selectKey` including the suspension: if no
credential is available at `t`, the call sleeps until the earliest cooldown
expiry `w` and re-evaluates there; the returned `Nat` is the time at which
the call actually returns. -/
def selectKeyBlocking (p : KeyPool) (t : Nat) : Option (String × KeyPool × Nat) :=
  match selectKeyAt p t with
  | some (k, p') => some (k, p', t)
  | none =>
    match earliestExpiry p with
    | none => none
    | some w =>
      match selectKeyAt p w with
      | none => none
      | some (k, p') => some (k, p', w)

/-- Modelled from the spec: `markFailure(key)` sets
`cooling-until = now + cooldownDuration` for `key` (spec section 4.1),
overwriting any existing cooldown. -/
def markFailure (key : String) (now : Nat) (p : KeyPool) : KeyPool :=
  { p with keys := p.keys.map fun c =>
      if c.secret = key then { c with coolingUntil := some (now + p.cooldown) } else c }

/-- Modelled from the spec: `markSuccess(key)` idempotently clears any
cooldown on `key` (spec section 4.1). -/
def markSuccess (key : String) (p : KeyPool) : KeyPool :=
  { p with keys := p.keys.map fun c =>
      if c.secret = key then { c with coolingUntil := none } else c }

/-- Modelled from the spec: `construct(keys, cooldownDuration)` fails with a
`ConfigError` on an empty credential list (spec section 4.1); the initial
cursor is placed so that the first selection returns the first credential. -/
def construct (secrets : List String) (cooldownDuration : Nat) : Except String KeyPool :=
  if secrets.isEmpty then Except.error "ConfigError"
  else Except.ok
    { keys := secrets.map fun s => { secret := s, coolingUntil := none }
      cursor := secrets.length - 1
      cooldown := cooldownDuration }

end KeyPool

namespace ProxyServer

/-- Embeds `TARGET_API_HOST` (src/proxy_server.py, line 17); Python `str`
modelled as `List Char` so that slicing is explicit. -/
def TARGET_API_HOST : List Char := "https://api.cerebras.ai/v1/".toList

/-- Embeds the path normalisation of `proxy_handler` (lines 50-52): if the
inbound path starts with `v1/`, remove those first three characters. -/
def stripPath (path : List Char) : List Char :=
  if "v1/".toList.isPrefixOf path then path.drop 3 else path

/-- Embeds the target-URL derivation (line 54):
`f"{TARGET_API_HOST}{path}"` after the normalisation above. -/
def target_url (path : List Char) : List Char :=
  TARGET_API_HOST ++ stripPath path

/-- The response the handler builds from an upstream reply
(lines 81-86 / 110-115). -/
structure Response where
  status : Nat
  headers : List (String × String)
  body : String
deriving Repr, DecidableEq

/-- What one outbound attempt can produce: an upstream HTTP reply, an
`aiohttp.ClientError` (line 133), or an unexpected exception (line 138). -/
inductive Outcome where
  | resp (status : Nat) (headers : List (String × String)) (body : String)
  | clientError
  | unexpectedError (msg : String)
deriving Repr, DecidableEq

/-- Embeds the response-header copy (lines 84-85): every upstream header
whose lowercased name is neither `content-length` nor `transfer-encoding`. -/
def filterRespHeaders (hs : List (String × String)) : List (String × String) :=
  hs.filter fun kv =>
    ¬(kv.1.toLower = "content-length" ∨ kv.1.toLower = "transfer-encoding")

/-- Embeds the synthetic 503 returned when the retry loop exhausts its bound
(line 145). -/
def serviceUnavailable : Response :=
  { status := 503, headers := [], body := "Service unavailable: Maximum retries exceeded." }

/-- Embeds `max_retries = self.api_key_manager.get_key_count() * 2`
(line 64), with the pool size read off the modelled pool. -/
def max_retries (p : KeyPool) : Nat := p.keys.length * 2

/-- Embeds the body of the `for attempt in range(max_retries)` loop
(lines 66-141).  Both method branches (GET-like and body-carrying) share the
same status logic, embedded once.  `outcomes` gives the result of the
outbound call made on each attempt; the pool (spec-modelled, since the
cooldown manager is absent from src/) and the logical clock are threaded
through.  Per attempt: select a key (suspending while all keys cool);
status 429 or 500 marks the key cooling and continues; any other status is
returned, additionally marking success when `status < 400`; a client error
marks the key cooling and continues; an unexpected error returns a synthetic
500.  The fallback in the impossible no-key branch is never reached for a
non-empty pool. -/
def proxyLoop (outcomes : Nat → Outcome) : Nat → Nat → KeyPool → Nat → Response × KeyPool
  | 0, _, p, _ => (serviceUnavailable, p)
  | fuel + 1, attempt, p, t =>
    match KeyPool.selectKeyBlocking p t with
    | none => ({ status := 500, headers := [], body := "Proxy error: no key" }, p)
    | some (k, p1, t1) =>
      match outcomes attempt with
      | Outcome.resp s hs b =>
        if s = 429 ∨ s = 500 then
          proxyLoop outcomes fuel (attempt + 1) (KeyPool.markFailure k t1 p1) t1
        else
          ({ status := s, headers := filterRespHeaders hs, body := b },
           if s < 400 then KeyPool.markSuccess k p1 else p1)
      | Outcome.clientError =>
        proxyLoop outcomes fuel (attempt + 1) (KeyPool.markFailure k t1 p1) t1
      | Outcome.unexpectedError msg =>
        ({ status := 500, headers := [], body := "Proxy error: " ++ msg }, p1)

/-- Embeds `proxy_handler`'s retry loop entry (lines 63-145): the loop runs
for at most `max_retries` attempts starting from attempt 0. -/
def proxy_handler (p : KeyPool) (t : Nat) (outcomes : Nat → Outcome) : Response × KeyPool :=
  proxyLoop outcomes (max_retries p) 0 p t

/-- An attempt outcome on which the loop continues to the next iteration:
a transport failure or an upstream 429/500 (lines 88-96, 133-137). -/
def Retryable : Outcome → Prop
  | Outcome.resp s _ _ => s = 429 ∨ s = 500
  | Outcome.clientError => True
  | Outcome.unexpectedError _ => False

instance : DecidablePred Retryable := fun o => by
  cases o <;> simp [Retryable] <;> infer_instance

end ProxyServer

namespace IncomingKeyManager

/-- One row of the `api_keys` table (src/incoming_key_manager.py,
lines 30-41); the SQL `revoked INTEGER DEFAULT 0` is modelled as `Bool`,
timestamps as opaque strings. -/
structure KeyRecord where
  api_key : String
  name : String
  created_at : String
  revoked : Bool
  revoked_at : Option String
  last_used_at : Option String
  request_count : Nat
deriving Repr, DecidableEq

/-- The table contents in row order. -/
abbrev KeyDb := List KeyRecord

/-- Replace the first record satisfying `q` by its image under `f`
(models the `UPDATE ... WHERE id = key_id` on the row `fetchone` found). -/
def updateFirst (q : KeyRecord → Bool) (f : KeyRecord → KeyRecord) : KeyDb → KeyDb
  | [] => []
  | r :: rs => if q r then f r :: rs else r :: updateFirst q f rs

/-- Embeds `verify_api_key` (lines 79-122): fetch the first row with this
key; no row or a revoked row returns `False`; otherwise `last_used_at` and
`request_count` are updated on that row and `True` is returned.  `now` is
the `datetime.utcnow().isoformat()` string. -/
def verify_api_key (db : KeyDb) (key : String) (now : String) : Bool × KeyDb :=
  match db.find? (fun r => r.api_key == key) with
  | none => (false, db)
  | some r =>
    if r.revoked then (false, db)
    else
      (true,
       updateFirst (fun r' => r'.api_key == key)
         (fun r' => { r' with last_used_at := some now,
                              request_count := r'.request_count + 1 }) db)

/-- Embeds `revoke_api_key` (lines 124-153): `UPDATE api_keys SET revoked=1,
revoked_at=now WHERE api_key = key AND revoked = 0`; the returned flag is
`rowcount > 0`. -/
def revoke_api_key (db : KeyDb) (key : String) (now : String) : Bool × KeyDb :=
  (db.any (fun r => r.api_key == key && !r.revoked),
   db.map fun r =>
     if r.api_key == key && !r.revoked then
       { r with revoked := true, revoked_at := some now }
     else r)

end IncomingKeyManager

/-! ## Helper lemmas -/

lemma runKeys_take : ∀ (n : Nat) (ks : List String), n ≤ ks.length →
    (ApiKeyManager.runKeys ks n).1 = ks.take n := by
  intro n
  induction n with
  | zero => intro ks _; rfl
  | succ m ih =>
    intro ks hle
    match ks with
    | [] => simp at hle
    | k :: ks' =>
      have h1 : m ≤ ks'.length := by simpa using Nat.le_of_succ_le_succ hle
      have h2 : m ≤ (ks' ++ [k]).length := by simp; omega
      simp only [ApiKeyManager.runKeys, ApiKeyManager.get_next_key]
      rw [ih (ks' ++ [k]) h2, List.take_append_of_le_length h1]
      simp [List.take_succ_cons]

lemma init_ok_of_ne_nil (m : List (String × String)) (hm : m ≠ []) :
    ApiKeyManager.init m = Except.ok (m.map Prod.snd) := by
  unfold ApiKeyManager.init
  rw [if_neg]
  simp [List.isEmpty_iff, hm]

/-! ## Claim C1 -/

/-- C1: for every pool constructed from a non-empty credential mapping, with
no failure ever recorded, `N` sequential `get_next_key` calls (`N` = pool
size) return each credential exactly once, in the iteration order of the
supplied mapping: the list of returned keys is exactly the deque the
constructor built from `keys.values()`. -/
theorem claim_c1_round_robin (m : List (String × String)) (hm : m ≠ []) :
    ∃ ks : List String, ApiKeyManager.init m = Except.ok ks ∧
      ks = m.map Prod.snd ∧
      (ApiKeyManager.runKeys ks (ApiKeyManager.get_key_count ks)).1 = ks := by
  refine ⟨m.map Prod.snd, init_ok_of_ne_nil m hm, rfl, ?_⟩
  rw [ApiKeyManager.get_key_count, runKeys_take _ _ (Nat.le_refl _), List.take_length]

/-- Witness for C1 at a concrete two-credential mapping. -/
theorem claim_c1_round_robin_witness :
    ∃ ks : List String,
      ApiKeyManager.init [("name1", "s1"), ("name2", "s2")] = Except.ok ks ∧
      ks = [("name1", "s1"), ("name2", "s2")].map Prod.snd ∧
      (ApiKeyManager.runKeys ks (ApiKeyManager.get_key_count ks)).1 = ks :=
  claim_c1_round_robin [("name1", "s1"), ("name2", "s2")] (by decide)

/-! ## Claim C8 -/

/-- C8: constructing the pool from an empty credential set raises
(`ValueError` in `ApiKeyManager.__init__`, `ConfigError` in the
spec-modelled `KeyPool.construct`), construction from any non-empty set
succeeds, and the spec-modelled constructor (the one `main` calls with
`cooldown_seconds=...`) takes the cooldown duration as a parameter and
stores it. -/
theorem claim_c8_constructor :
    (ApiKeyManager.init [] = Except.error "No API keys provided.") ∧
    (∀ m : List (String × String), m ≠ [] →
      ∃ ks, ApiKeyManager.init m = Except.ok ks) ∧
    (∀ cd, KeyPool.construct [] cd = Except.error "ConfigError") ∧
    (∀ (secrets : List String) (cd : Nat), secrets ≠ [] →
      ∃ p : KeyPool, KeyPool.construct secrets cd = Except.ok p ∧
        p.cooldown = cd ∧ p.keys.map Credential.secret = secrets) := by
  refine ⟨rfl, fun m hm => ⟨m.map Prod.snd, init_ok_of_ne_nil m hm⟩, fun cd => rfl, ?_⟩
  intro secrets cd hs
  refine ⟨{ keys := secrets.map fun s => { secret := s, coolingUntil := none }
            cursor := secrets.length - 1
            cooldown := cd }, ?_, rfl, ?_⟩
  · unfold KeyPool.construct
    rw [if_neg]
    simp [List.isEmpty_iff, hs]
  · rw [List.map_map]
    exact List.map_id secrets

/-- Witness for C8 at a concrete credential list and cooldown. -/
theorem claim_c8_constructor_witness :
    ∃ p : KeyPool, KeyPool.construct ["s1"] 60 = Except.ok p ∧
      p.cooldown = 60 ∧ p.keys.map Credential.secret = ["s1"] :=
  claim_c8_constructor.2.2.2 ["s1"] 60 (by decide)

/-! ## Claim C9 -/

lemma stripPath_v1_append (q : List Char) :
    ProxyServer.stripPath ("v1/".toList ++ q) = q := by
  unfold ProxyServer.stripPath
  rw [if_pos]
  · rfl
  · simp [List.isPrefixOf_iff_prefix]

lemma stripPath_of_no_v1 (q : List Char) (h : "v1/".toList.isPrefixOf q = false) :
    ProxyServer.stripPath q = q := by
  rw [ProxyServer.stripPath, if_neg]
  intro hp
  rw [h] at hp
  exact Bool.false_ne_true hp

/-- C9: the upstream-URL derivation strips at most one leading `v1/`
segment and is idempotent: for an already-stripped path `p` (one not
starting with `v1/`), the URL derived from `v1/ ++ p` equals the URL
derived from `p`; a doubled prefix is stripped only once; and in particular
`v1/chat/completions` and `chat/completions` resolve to the same URL. -/
theorem claim_c9_url_idempotent (p : List Char)
    (h : "v1/".toList.isPrefixOf p = false) :
    ProxyServer.target_url ("v1/".toList ++ p) = ProxyServer.target_url p ∧
    ProxyServer.target_url ("v1/".toList ++ ("v1/".toList ++ p)) =
      ProxyServer.TARGET_API_HOST ++ ("v1/".toList ++ p) ∧
    ProxyServer.target_url "v1/chat/completions".toList =
      ProxyServer.target_url "chat/completions".toList := by
  refine ⟨?_, ?_, by decide⟩
  · rw [ProxyServer.target_url, ProxyServer.target_url,
        stripPath_v1_append, stripPath_of_no_v1 p h]
  · rw [ProxyServer.target_url, stripPath_v1_append]

/-- Witness for C9 at the concrete path `chat/completions`. -/
theorem claim_c9_url_idempotent_witness :
    ProxyServer.target_url ("v1/".toList ++ "chat/completions".toList) =
      ProxyServer.target_url "chat/completions".toList ∧
    ProxyServer.target_url ("v1/".toList ++ ("v1/".toList ++ "chat/completions".toList)) =
      ProxyServer.TARGET_API_HOST ++ ("v1/".toList ++ "chat/completions".toList) ∧
    ProxyServer.target_url "v1/chat/completions".toList =
      ProxyServer.target_url "chat/completions".toList :=
  claim_c9_url_idempotent "chat/completions".toList (by decide)

/-! ## Claim C10 -/

lemma revoke_mem_revoked (db : IncomingKeyManager.KeyDb) (k now : String) :
    ∀ r ∈ (IncomingKeyManager.revoke_api_key db k now).2,
      r.api_key = k → r.revoked = true := by
  intro r hr hk
  simp only [IncomingKeyManager.revoke_api_key, List.mem_map] at hr
  obtain ⟨a, ha, hra⟩ := hr
  subst hra
  by_cases hc : (a.api_key == k && !a.revoked) = true
  · rw [if_pos hc]
  · rw [if_neg hc] at hk ⊢
    simp only [Bool.and_eq_true, beq_iff_eq, Bool.not_eq_true'] at hc
    cases hb : a.revoked
    · exact absurd ⟨hk, hb⟩ hc
    · rfl

lemma verify_false_of_revoked (db : IncomingKeyManager.KeyDb) (k now : String)
    (hall : ∀ r ∈ db, r.api_key = k → r.revoked = true) :
    (IncomingKeyManager.verify_api_key db k now).1 = false := by
  cases hf : db.find? (fun r => r.api_key == k) with
  | none => simp only [IncomingKeyManager.verify_api_key, hf]
  | some r =>
    have hp := List.find?_some hf
    have hr : r ∈ db := List.mem_of_find?_eq_some hf
    have hrev : r.revoked = true := hall r hr (by simpa using hp)
    simp only [IncomingKeyManager.verify_api_key, hf]
    rw [if_pos hrev]

lemma revoke_false_of_revoked (db : IncomingKeyManager.KeyDb) (k now : String)
    (hall : ∀ r ∈ db, r.api_key = k → r.revoked = true) :
    (IncomingKeyManager.revoke_api_key db k now).1 = false := by
  simp only [IncomingKeyManager.revoke_api_key]
  rw [List.any_eq_false]
  intro r hr hpx
  simp only [Bool.and_eq_true, beq_iff_eq, Bool.not_eq_true'] at hpx
  have hrev := hall r hr hpx.1
  rw [hpx.2] at hrev
  exact Bool.false_ne_true hrev

/-- C10: `revoke_api_key k` returns `True` exactly when a record with key
`k` exists and is not yet revoked; after a successful revoke,
`verify_api_key k` returns `False`, and a second `revoke_api_key k`
returns `False`. -/
theorem claim_c10_revoke (db : IncomingKeyManager.KeyDb) (k ta tb tc : String) :
    ((IncomingKeyManager.revoke_api_key db k ta).1 = true ↔
      ∃ r ∈ db, r.api_key = k ∧ r.revoked = false) ∧
    ((IncomingKeyManager.revoke_api_key db k ta).1 = true →
      (IncomingKeyManager.verify_api_key
        (IncomingKeyManager.revoke_api_key db k ta).2 k tb).1 = false) ∧
    ((IncomingKeyManager.revoke_api_key db k ta).1 = true →
      (IncomingKeyManager.revoke_api_key
        (IncomingKeyManager.revoke_api_key db k ta).2 k tc).1 = false) := by
  refine ⟨?_, fun _ => verify_false_of_revoked _ _ _ (revoke_mem_revoked db k ta),
          fun _ => revoke_false_of_revoked _ _ _ (revoke_mem_revoked db k ta)⟩
  simp only [IncomingKeyManager.revoke_api_key]
  rw [List.any_eq_true]
  constructor
  · rintro ⟨r, hr, hp⟩
    simp only [Bool.and_eq_true, beq_iff_eq, Bool.not_eq_true'] at hp
    exact ⟨r, hr, hp⟩
  · rintro ⟨r, hr, hk, hrev⟩
    exact ⟨r, hr, by simp [hk, hrev]⟩

/-- Witness for C10: a one-row table with an unrevoked key `k1`; after a
successful revoke, verification of `k1` fails. -/
theorem claim_c10_revoke_witness :
    (IncomingKeyManager.verify_api_key
      (IncomingKeyManager.revoke_api_key
        [{ api_key := "k1", name := "n", created_at := "c", revoked := false,
           revoked_at := none, last_used_at := none, request_count := 0 }]
        "k1" "ta").2 "k1" "tb").1 = false :=
  (claim_c10_revoke
    [{ api_key := "k1", name := "n", created_at := "c", revoked := false,
       revoked_at := none, last_used_at := none, request_count := 0 }]
    "k1" "ta" "tb" "tc").2.1 (by decide)

/-! ## Proxy loop lemmas -/

lemma selectKeyAt_keys {p : KeyPool} {t : Nat} {k : String} {p' : KeyPool}
    (h : KeyPool.selectKeyAt p t = some (k, p')) : p'.keys = p.keys := by
  unfold KeyPool.selectKeyAt at h
  cases hf : KeyPool.findAvail p t with
  | none => rw [hf] at h; exact absurd h (by simp)
  | some jc =>
    rw [hf] at h
    obtain ⟨j, c⟩ := jc
    simp only [Option.some.injEq, Prod.mk.injEq] at h
    rw [← h.2]

lemma selectKeyBlocking_keys {p : KeyPool} {t : Nat} {k : String} {p' : KeyPool} {t' : Nat}
    (h : KeyPool.selectKeyBlocking p t = some (k, p', t')) : p'.keys = p.keys := by
  cases h1 : KeyPool.selectKeyAt p t with
  | some kp =>
    obtain ⟨k1, p1⟩ := kp
    simp only [KeyPool.selectKeyBlocking, h1, Option.some.injEq, Prod.mk.injEq] at h
    rw [← h.2.1]
    exact selectKeyAt_keys h1
  | none =>
    cases h2 : KeyPool.earliestExpiry p with
    | none => simp [KeyPool.selectKeyBlocking, h1, h2] at h
    | some w =>
      cases h3 : KeyPool.selectKeyAt p w with
      | none => simp [KeyPool.selectKeyBlocking, h1, h2, h3] at h
      | some kp =>
        obtain ⟨k1, p1⟩ := kp
        simp only [KeyPool.selectKeyBlocking, h1, h2, h3,
          Option.some.injEq, Prod.mk.injEq] at h
        rw [← h.2.1]
        exact selectKeyAt_keys h3

/-! ## Claim C2 -/

/-- C2: when an attempt's upstream response has status 429 or 500, the
handler marks a failure (cooldown) against the credential used for that
attempt and continues with the next retry iteration — the run from this
iteration equals the run from the next iteration on the failure-marked
pool, so the 429/500 response is discarded, never returned. -/
theorem claim_c2_rotate_on_429_500 (outcomes : Nat → ProxyServer.Outcome)
    (fuel attempt : Nat) (p p1 : KeyPool) (t t1 : Nat) (k : String)
    (s : Nat) (hdrs : List (String × String)) (b : String)
    (hsel : KeyPool.selectKeyBlocking p t = some (k, p1, t1))
    (ho : outcomes attempt = ProxyServer.Outcome.resp s hdrs b)
    (hst : s = 429 ∨ s = 500) :
    ProxyServer.proxyLoop outcomes (fuel + 1) attempt p t =
      ProxyServer.proxyLoop outcomes fuel (attempt + 1)
        (KeyPool.markFailure k t1 p1) t1 := by
  simp only [ProxyServer.proxyLoop, hsel, ho]
  rw [if_pos hst]

/-- Witness for C2: a one-key pool and a 429 upstream reply. -/
theorem claim_c2_rotate_on_429_500_witness :
    ProxyServer.proxyLoop (fun _ => ProxyServer.Outcome.resp 429 [] "limit") 1 0
        { keys := [{ secret := "A", coolingUntil := none }], cursor := 0, cooldown := 60 } 0 =
      ProxyServer.proxyLoop (fun _ => ProxyServer.Outcome.resp 429 [] "limit") 0 1
        (KeyPool.markFailure "A" 0
          { keys := [{ secret := "A", coolingUntil := none }], cursor := 0, cooldown := 60 }) 0 :=
  claim_c2_rotate_on_429_500 (fun _ => ProxyServer.Outcome.resp 429 [] "limit")
    0 0 _ _ 0 0 "A" 429 [] "limit" (by decide) rfl (Or.inl rfl)

/-! ## Claim C3 -/

lemma markSuccess_clears (k : String) (q : KeyPool) :
    ∀ c ∈ (KeyPool.markSuccess k q).keys, c.secret = k → c.coolingUntil = none := by
  intro c hc hck
  simp only [KeyPool.markSuccess, List.mem_map] at hc
  obtain ⟨a, ha, hac⟩ := hc
  subst hac
  by_cases h : a.secret = k
  · rw [if_pos h]
  · rw [if_neg h] at hck ⊢
    exact absurd hck h

/-- C3: when an attempt's upstream response has status < 400, the handler
records success for the used credential (clearing any cooldown on it) and
returns the response verbatim: the same status code, the same body, and
the upstream headers minus `Content-Length` and `Transfer-Encoding`. -/
theorem claim_c3_success_verbatim (outcomes : Nat → ProxyServer.Outcome)
    (fuel attempt : Nat) (p p1 : KeyPool) (t t1 : Nat) (k : String)
    (s : Nat) (hdrs : List (String × String)) (b : String)
    (hsel : KeyPool.selectKeyBlocking p t = some (k, p1, t1))
    (ho : outcomes attempt = ProxyServer.Outcome.resp s hdrs b)
    (hlt : s < 400) :
    ProxyServer.proxyLoop outcomes (fuel + 1) attempt p t =
      ({ status := s, headers := ProxyServer.filterRespHeaders hdrs, body := b },
       KeyPool.markSuccess k p1) ∧
    (∀ c ∈ (KeyPool.markSuccess k p1).keys, c.secret = k → c.coolingUntil = none) := by
  refine ⟨?_, markSuccess_clears k p1⟩
  simp only [ProxyServer.proxyLoop, hsel, ho]
  rw [if_neg (by omega : ¬(s = 429 ∨ s = 500)), if_pos hlt]

/-- Witness for C3: a one-key pool and a 200 upstream reply whose
`Content-Length` header is dropped while other headers are kept. -/
theorem claim_c3_success_verbatim_witness :
    (ProxyServer.proxyLoop
        (fun _ => ProxyServer.Outcome.resp 200 [("Content-Length", "5"), ("X-Y", "z")] "hello")
        1 0 { keys := [{ secret := "A", coolingUntil := none }], cursor := 0, cooldown := 60 } 0 =
      ({ status := 200,
         headers := ProxyServer.filterRespHeaders [("Content-Length", "5"), ("X-Y", "z")],
         body := "hello" },
       KeyPool.markSuccess "A"
         { keys := [{ secret := "A", coolingUntil := none }], cursor := 0, cooldown := 60 })) ∧
    (∀ c ∈ (KeyPool.markSuccess "A"
        { keys := [{ secret := "A", coolingUntil := none }], cursor := 0, cooldown := 60 }).keys,
      c.secret = "A" → c.coolingUntil = none) :=
  claim_c3_success_verbatim
    (fun _ => ProxyServer.Outcome.resp 200 [("Content-Length", "5"), ("X-Y", "z")] "hello")
    0 0 _ _ 0 0 "A" 200 [("Content-Length", "5"), ("X-Y", "z")] "hello"
    (by decide) rfl (by omega)

/-! ## Claim C6 -/

/-- C6: when an attempt's upstream response has a status ≥ 400 other than
429 and 500, the handler returns that response at once with identical
status and body (headers copied through the same filter), without another
iteration, and the credential cooldown states are exactly those of the pool
before the call: the return path performs no pool mutation beyond the
cursor move done by selection. -/
theorem claim_c6_client_error_verbatim (outcomes : Nat → ProxyServer.Outcome)
    (fuel attempt : Nat) (p p1 : KeyPool) (t t1 : Nat) (k : String)
    (s : Nat) (hdrs : List (String × String)) (b : String)
    (hsel : KeyPool.selectKeyBlocking p t = some (k, p1, t1))
    (ho : outcomes attempt = ProxyServer.Outcome.resp s hdrs b)
    (hge : 400 ≤ s) (h429 : s ≠ 429) (h500 : s ≠ 500) :
    ProxyServer.proxyLoop outcomes (fuel + 1) attempt p t =
      ({ status := s, headers := ProxyServer.filterRespHeaders hdrs, body := b }, p1) ∧
    p1.keys = p.keys := by
  refine ⟨?_, selectKeyBlocking_keys hsel⟩
  simp only [ProxyServer.proxyLoop, hsel, ho]
  rw [if_neg (by omega : ¬(s = 429 ∨ s = 500)), if_neg (by omega : ¬ s < 400)]

/-- Witness for C6: a one-key pool and a 404 upstream reply, returned
verbatim with the pool's credential states untouched. -/
theorem claim_c6_client_error_verbatim_witness :
    (ProxyServer.proxyLoop (fun _ => ProxyServer.Outcome.resp 404 [("A", "b")] "nope")
        1 0 { keys := [{ secret := "A", coolingUntil := none }], cursor := 0, cooldown := 60 } 0 =
      ({ status := 404, headers := ProxyServer.filterRespHeaders [("A", "b")], body := "nope" },
       { keys := [{ secret := "A", coolingUntil := none }], cursor := 0, cooldown := 60 })) ∧
    ({ keys := [{ secret := "A", coolingUntil := none }], cursor := 0,
       cooldown := 60 } : KeyPool).keys =
      ({ keys := [{ secret := "A", coolingUntil := none }], cursor := 0,
         cooldown := 60 } : KeyPool).keys :=
  claim_c6_client_error_verbatim (fun _ => ProxyServer.Outcome.resp 404 [("A", "b")] "nope")
    0 0 _ _ 0 0 "A" 404 [("A", "b")] "nope" (by decide) rfl
    (by omega) (by omega) (by omega)

/-! ## Availability scan lemmas -/

lemma exists_hit (n start j : Nat) (hj : j < n) :
    ∃ i, i < n ∧ (start + i) % n = j := by
  have hn : 0 < n := Nat.lt_of_le_of_lt (Nat.zero_le j) hj
  have hrn : start % n < n := Nat.mod_lt start hn
  by_cases hc : start % n ≤ j
  · refine ⟨j - start % n, by omega, ?_⟩
    rw [Nat.add_mod, Nat.mod_eq_of_lt (show j - start % n < n by omega)]
    rw [show start % n + (j - start % n) = j by omega]
    exact Nat.mod_eq_of_lt hj
  · refine ⟨j + n - start % n, by omega, ?_⟩
    rw [Nat.add_mod, Nat.mod_eq_of_lt (show j + n - start % n < n by omega)]
    rw [show start % n + (j + n - start % n) = j + n by omega, Nat.add_mod_right]
    exact Nat.mod_eq_of_lt hj

lemma findAvailAux_some {ks : List Credential} {t : Nat} :
    ∀ {m start j c}, KeyPool.findAvailAux ks t start m = some (j, c) →
      ks.get? j = some c ∧ KeyPool.available c t = true := by
  intro m
  induction m with
  | zero => intro start j c h; simp [KeyPool.findAvailAux] at h
  | succ m ih =>
    intro start j c h
    simp only [KeyPool.findAvailAux] at h
    split at h
    · exact Option.noConfusion h
    · next c0 hg =>
      by_cases ha : KeyPool.available c0 t = true
      · rw [if_pos ha] at h
        simp only [Option.some.injEq, Prod.mk.injEq] at h
        obtain ⟨h1, h2⟩ := h
        subst h1; subst h2
        exact ⟨hg, ha⟩
      · rw [if_neg ha] at h
        exact ih h

lemma findAvailAux_none_of_unavail {ks : List Credential} {t : Nat}
    (hall : ∀ c ∈ ks, KeyPool.available c t = false) :
    ∀ (m start : Nat), KeyPool.findAvailAux ks t start m = none := by
  intro m
  induction m with
  | zero => intro start; rfl
  | succ m ih =>
    intro start
    simp only [KeyPool.findAvailAux]
    split
    · rfl
    · next c0 hg =>
      rw [if_neg]
      · exact ih (start + 1)
      · intro hx
        have hf := hall c0 (List.get?_mem hg)
        rw [hf] at hx
        exact Bool.false_ne_true hx

lemma findAvailAux_isSome {ks : List Credential} {t : Nat} :
    ∀ (m start : Nat),
      (∃ i, i < m ∧ ∃ c, ks.get? ((start + i) % ks.length) = some c ∧
        KeyPool.available c t = true) →
      (KeyPool.findAvailAux ks t start m).isSome = true := by
  intro m
  induction m with
  | zero =>
    intro start h
    obtain ⟨i, hi, _⟩ := h
    omega
  | succ m ih =>
    intro start h
    obtain ⟨i, hi, c, hg, ha⟩ := h
    have hlen : 0 < ks.length := by
      rcases List.get?_eq_some.mp hg with ⟨hlt, _⟩
      omega
    simp only [KeyPool.findAvailAux]
    split
    · next hg0 =>
      rw [List.get?_eq_none] at hg0
      have := Nat.mod_lt start hlen
      omega
    · next c0 hg0 =>
      by_cases hav : KeyPool.available c0 t = true
      · rw [if_pos hav]; rfl
      · rw [if_neg hav]
        apply ih (start + 1)
        match i, hi with
        | 0, _ =>
          rw [Nat.add_zero] at hg
          rw [hg0] at hg
          cases hg
          exact absurd ha hav
        | i' + 1, hi' =>
          refine ⟨i', by omega, c, ?_, ha⟩
          rw [show start + 1 + i' = start + (i' + 1) by omega]
          exact hg

lemma nat_min?_spec {l : List Nat} (hl : l ≠ []) :
    ∃ w, l.min? = some w ∧ w ∈ l ∧ ∀ x ∈ l, w ≤ x := by
  cases hm : l.min? with
  | none => rw [List.min?_eq_none_iff] at hm; exact absurd hm hl
  | some w =>
    refine ⟨w, rfl, ?_, ?_⟩
    · refine List.min?_mem ?_ hm
      intro a b
      rw [Nat.min_def]
      split
      · exact Or.inl rfl
      · exact Or.inr rfl
    · intro x hx
      exact (List.le_min?_iff (fun a b c => Nat.le_min) hm).1 (Nat.le_refl w) x hx

/-! ## selectKey lemmas -/

lemma selectKeyAt_none_of_unavail {p : KeyPool} {t : Nat}
    (hall : ∀ c ∈ p.keys, KeyPool.available c t = false) :
    KeyPool.selectKeyAt p t = none := by
  unfold KeyPool.selectKeyAt KeyPool.findAvail
  rw [findAvailAux_none_of_unavail hall]

lemma selectKeyAt_isSome_of_avail {p : KeyPool} {t : Nat} {c : Credential}
    (hc : c ∈ p.keys) (ha : KeyPool.available c t = true) :
    (KeyPool.selectKeyAt p t).isSome = true := by
  obtain ⟨idx, hidx⟩ := List.mem_iff_get?.mp hc
  have hlt : idx < p.keys.length := by
    rcases List.get?_eq_some.mp hidx with ⟨h, _⟩
    exact h
  obtain ⟨i, hi, hmod⟩ := exists_hit p.keys.length (p.cursor + 1) idx hlt
  have hsome : (KeyPool.findAvailAux p.keys t (p.cursor + 1) p.keys.length).isSome = true :=
    findAvailAux_isSome p.keys.length (p.cursor + 1) ⟨i, hi, c, by rw [hmod]; exact hidx, ha⟩
  cases hfa : KeyPool.findAvailAux p.keys t (p.cursor + 1) p.keys.length with
  | none => rw [hfa] at hsome; exact absurd hsome (Bool.false_ne_true)
  | some jc =>
    obtain ⟨j, c1⟩ := jc
    simp [KeyPool.selectKeyAt, KeyPool.findAvail, hfa]

lemma selectKeyAt_some_sound {p : KeyPool} {t : Nat} {k : String} {p' : KeyPool}
    (h : KeyPool.selectKeyAt p t = some (k, p')) :
    ∃ c ∈ p.keys, c.secret = k ∧ KeyPool.available c t = true := by
  unfold KeyPool.selectKeyAt at h
  cases hf : KeyPool.findAvail p t with
  | none => rw [hf] at h; exact Option.noConfusion h
  | some jc =>
    obtain ⟨j, c⟩ := jc
    simp only [hf, Option.some.injEq, Prod.mk.injEq] at h
    obtain ⟨hf1, hf2⟩ := findAvailAux_some hf
    exact ⟨c, List.get?_mem hf1, h.1, hf2⟩

lemma earliest_spec (p : KeyPool) (t : Nat) (hne : p.keys ≠ [])
    (hcool : ∀ c ∈ p.keys, KeyPool.available c t = false) :
    ∃ w, KeyPool.earliestExpiry p = some w ∧ t < w ∧
      (∃ cw ∈ p.keys, cw.coolingUntil = some w) ∧
      (∀ c ∈ p.keys, ∃ u, c.coolingUntil = some u ∧ w ≤ u) := by
  have hsome : ∀ c ∈ p.keys, ∃ u, c.coolingUntil = some u ∧ t < u := by
    intro c hc
    cases hcu : c.coolingUntil with
    | none =>
      have hx := hcool c hc
      simp [KeyPool.available, hcu] at hx
    | some u =>
      have hx := hcool c hc
      simp [KeyPool.available, hcu] at hx
      exact ⟨u, rfl, by omega⟩
  have hfm : p.keys.filterMap Credential.coolingUntil ≠ [] := by
    obtain ⟨c0, hc0⟩ := List.exists_mem_of_ne_nil p.keys hne
    obtain ⟨u0, hu0, _⟩ := hsome c0 hc0
    intro hx
    have hmem : u0 ∈ p.keys.filterMap Credential.coolingUntil :=
      List.mem_filterMap.mpr ⟨c0, hc0, hu0⟩
    rw [hx] at hmem
    exact List.not_mem_nil u0 hmem
  obtain ⟨w, hw, hwmem, hwle⟩ := nat_min?_spec hfm
  obtain ⟨cw, hcw, hcwu⟩ := List.mem_filterMap.mp hwmem
  obtain ⟨uw, huw, htuw⟩ := hsome cw hcw
  rw [hcwu] at huw
  refine ⟨w, hw, ?_, ⟨cw, hcw, hcwu⟩, ?_⟩
  · cases huw
    exact htuw
  · intro c hc
    obtain ⟨u, hu, _⟩ := hsome c hc
    exact ⟨u, hu, hwle u (List.mem_filterMap.mpr ⟨c, hc, hu⟩)⟩

lemma selectKeyBlocking_isSome {p : KeyPool} (t : Nat) (hne : p.keys ≠ []) :
    (KeyPool.selectKeyBlocking p t).isSome = true := by
  cases h1 : KeyPool.selectKeyAt p t with
  | some kp =>
    obtain ⟨k1, p1⟩ := kp
    simp [KeyPool.selectKeyBlocking, h1]
  | none =>
    have hall : ∀ c ∈ p.keys, KeyPool.available c t = false := by
      intro c hc
      cases hav : KeyPool.available c t with
      | false => rfl
      | true =>
        have hx := selectKeyAt_isSome_of_avail hc hav
        rw [h1] at hx
        exact absurd hx (Bool.false_ne_true)
    obtain ⟨w, hee, _, ⟨cw, hcw, hcwu⟩, _⟩ := earliest_spec p t hne hall
    have havw : KeyPool.available cw w = true := by
      simp [KeyPool.available, hcwu]
    have hx := selectKeyAt_isSome_of_avail hcw havw
    cases h3 : KeyPool.selectKeyAt p w with
    | none => rw [h3] at hx; exact absurd hx (Bool.false_ne_true)
    | some kp =>
      obtain ⟨k1, p1⟩ := kp
      simp [KeyPool.selectKeyBlocking, h1, hee, h3]

/-! ## Claim C4 -/

/-- C4: when every credential in the pool is cooling at time `t`, selection
succeeds only after, and not before, the earliest cooling-until time `w`:
`selectKeyAt` returns nothing at every instant before `w`, returns a key at
`w`, and the suspending `selectKeyBlocking` call started at `t` returns
exactly at `w` (the suspension itself is modelled by this logical-time
jump). -/
theorem claim_c4_blocks_until_earliest (p : KeyPool) (t : Nat)
    (hne : p.keys ≠ [])
    (hcool : ∀ c ∈ p.keys, KeyPool.available c t = false) :
    ∃ w, KeyPool.earliestExpiry p = some w ∧ t < w ∧
      (∀ t', t' < w → KeyPool.selectKeyAt p t' = none) ∧
      (KeyPool.selectKeyAt p w).isSome = true ∧
      Option.map (fun r => r.2.2) (KeyPool.selectKeyBlocking p t) = some w := by
  obtain ⟨w, hee, htw, ⟨cw, hcw, hcwu⟩, hall⟩ := earliest_spec p t hne hcool
  have havw : KeyPool.available cw w = true := by
    simp [KeyPool.available, hcwu]
  have hw_some := selectKeyAt_isSome_of_avail hcw havw
  refine ⟨w, hee, htw, ?_, hw_some, ?_⟩
  · intro t' ht'
    apply selectKeyAt_none_of_unavail
    intro c hc
    obtain ⟨u, hcu, hwu⟩ := hall c hc
    simp [KeyPool.available, hcu]
    omega
  · have h1 : KeyPool.selectKeyAt p t = none := selectKeyAt_none_of_unavail hcool
    cases h3 : KeyPool.selectKeyAt p w with
    | none => rw [h3] at hw_some; exact absurd hw_some (Bool.false_ne_true)
    | some kp =>
      obtain ⟨k1, p1⟩ := kp
      simp [KeyPool.selectKeyBlocking, h1, hee, h3]

/-- Witness for C4: a two-key pool whose credentials cool until 10 and 7,
queried at time 5: the earliest expiry is 7. -/
theorem claim_c4_blocks_until_earliest_witness :
    ∃ w, KeyPool.earliestExpiry
        { keys := [{ secret := "A", coolingUntil := some 10 },
                   { secret := "B", coolingUntil := some 7 }],
          cursor := 0, cooldown := 60 } = some w ∧ 5 < w ∧
      (∀ t', t' < w → KeyPool.selectKeyAt
        { keys := [{ secret := "A", coolingUntil := some 10 },
                   { secret := "B", coolingUntil := some 7 }],
          cursor := 0, cooldown := 60 } t' = none) ∧
      (KeyPool.selectKeyAt
        { keys := [{ secret := "A", coolingUntil := some 10 },
                   { secret := "B", coolingUntil := some 7 }],
          cursor := 0, cooldown := 60 } w).isSome = true ∧
      Option.map (fun r => r.2.2) (KeyPool.selectKeyBlocking
        { keys := [{ secret := "A", coolingUntil := some 10 },
                   { secret := "B", coolingUntil := some 7 }],
          cursor := 0, cooldown := 60 } 5) = some w :=
  claim_c4_blocks_until_earliest
    { keys := [{ secret := "A", coolingUntil := some 10 },
               { secret := "B", coolingUntil := some 7 }],
      cursor := 0, cooldown := 60 } 5 (by decide) (by decide)

/-! ## Claim C5 -/

/-- C5: after a failure is recorded against key `k` at time `t0`, the
cooling-until of every `k` credential is exactly `t0 + cooldownDuration`
(overwriting whatever cooldown was there), selection never returns `k`
while `t < t0 + cooldownDuration`, and at `t0 + cooldownDuration` the `k`
credential is available again with no other transition required. -/
theorem claim_c5_cooldown_window (p : KeyPool) (k : String) (t0 t : Nat)
    (ht : t < t0 + p.cooldown) :
    (∀ (s : String) (q : KeyPool),
        KeyPool.selectKeyAt (KeyPool.markFailure k t0 p) t = some (s, q) → s ≠ k) ∧
    (∀ c ∈ (KeyPool.markFailure k t0 p).keys, c.secret = k →
      c.coolingUntil = some (t0 + p.cooldown) ∧
      KeyPool.available c (t0 + p.cooldown) = true) := by
  constructor
  · intro s q hsel hsk
    obtain ⟨c, hc, hcs, hca⟩ := selectKeyAt_some_sound hsel
    simp only [KeyPool.markFailure, List.mem_map] at hc
    obtain ⟨a, ha, hac⟩ := hc
    subst hac
    by_cases hak : a.secret = k
    · rw [if_pos hak] at hca
      simp [KeyPool.available] at hca
      omega
    · rw [if_neg hak] at hcs
      exact hak (hcs.trans hsk)
  · intro c hc hck
    simp only [KeyPool.markFailure, List.mem_map] at hc
    obtain ⟨a, ha, hac⟩ := hc
    subst hac
    by_cases hak : a.secret = k
    · rw [if_pos hak]
      exact ⟨rfl, by simp [KeyPool.available]⟩
    · rw [if_neg hak] at hck ⊢
      exact absurd hck hak

/-- Witness for C5: a two-key pool, failure on `A` at time 0 with a 60s
cooldown, queried at time 5. -/
theorem claim_c5_cooldown_window_witness :
    (∀ (s : String) (q : KeyPool),
        KeyPool.selectKeyAt (KeyPool.markFailure "A" 0
          { keys := [{ secret := "A", coolingUntil := none },
                     { secret := "B", coolingUntil := none }],
            cursor := 0, cooldown := 60 }) 5 = some (s, q) → s ≠ "A") ∧
    (∀ c ∈ (KeyPool.markFailure "A" 0
        { keys := [{ secret := "A", coolingUntil := none },
                   { secret := "B", coolingUntil := none }],
          cursor := 0, cooldown := 60 }).keys, c.secret = "A" →
      c.coolingUntil = some (0 + 60) ∧
      KeyPool.available c (0 + 60) = true) :=
  claim_c5_cooldown_window
    { keys := [{ secret := "A", coolingUntil := none },
               { secret := "B", coolingUntil := none }],
      cursor := 0, cooldown := 60 } "A" 0 5 (by decide)

/-! ## Claim C7 -/

lemma proxyLoop_503 (outcomes : Nat → ProxyServer.Outcome)
    (hretry : ∀ i, ProxyServer.Retryable (outcomes i)) :
    ∀ (fuel attempt : Nat) (p : KeyPool) (t : Nat), p.keys ≠ [] →
      (ProxyServer.proxyLoop outcomes fuel attempt p t).1 =
        ProxyServer.serviceUnavailable := by
  intro fuel
  induction fuel with
  | zero => intro attempt p t _; rfl
  | succ m ih =>
    intro attempt p t hne
    have hsome := selectKeyBlocking_isSome (p := p) t hne
    cases hsb : KeyPool.selectKeyBlocking p t with
    | none => rw [hsb] at hsome; exact absurd hsome (Bool.false_ne_true)
    | some kpt =>
      obtain ⟨k, p1, t1⟩ := kpt
      have hkeys : p1.keys = p.keys := selectKeyBlocking_keys hsb
      have hne1 : (KeyPool.markFailure k t1 p1).keys ≠ [] := by
        simp only [KeyPool.markFailure, ne_eq, List.map_eq_nil_iff]
        rw [hkeys]
        exact hne
      cases ho : outcomes attempt with
      | resp s hdrs b =>
        have hr := hretry attempt
        rw [ho] at hr
        simp only [ProxyServer.Retryable] at hr
        simp only [ProxyServer.proxyLoop, hsb, ho]
        rw [if_pos hr]
        exact ih (attempt + 1) _ t1 hne1
      | clientError =>
        simp only [ProxyServer.proxyLoop, hsb, ho]
        exact ih (attempt + 1) _ t1 hne1
      | unexpectedError msg =>
        have hr := hretry attempt
        rw [ho] at hr
        simp only [ProxyServer.Retryable] at hr

/-- C7: the retry bound is `get_key_count() * 2`, i.e. twice the pool size,
and when every attempt's outcome is retryable (a transport failure or an
upstream 429/500) the handler exhausts the bound and returns the synthetic
503 service-unavailable response. -/
theorem claim_c7_retry_bound_503 (p : KeyPool) (t : Nat)
    (outcomes : Nat → ProxyServer.Outcome)
    (hne : p.keys ≠ []) (hretry : ∀ i, ProxyServer.Retryable (outcomes i)) :
    ProxyServer.max_retries p = 2 * p.keys.length ∧
    (ProxyServer.proxy_handler p t outcomes).1 = ProxyServer.serviceUnavailable ∧
    ProxyServer.serviceUnavailable.status = 503 := by
  refine ⟨by rw [ProxyServer.max_retries, Nat.mul_comm], ?_, rfl⟩
  exact proxyLoop_503 outcomes hretry _ 0 p t hne

/-- Witness for C7: a one-key pool with every attempt failing at the
transport level returns the synthetic 503. -/
theorem claim_c7_retry_bound_503_witness :
    ProxyServer.max_retries
        { keys := [{ secret := "A", coolingUntil := none }], cursor := 0, cooldown := 60 } =
      2 * ({ keys := [{ secret := "A", coolingUntil := none }], cursor := 0,
             cooldown := 60 } : KeyPool).keys.length ∧
    (ProxyServer.proxy_handler
        { keys := [{ secret := "A", coolingUntil := none }], cursor := 0, cooldown := 60 }
        0 (fun _ => ProxyServer.Outcome.clientError)).1 = ProxyServer.serviceUnavailable ∧
    ProxyServer.serviceUnavailable.status = 503 :=
  claim_c7_retry_bound_503
    { keys := [{ secret := "A", coolingUntil := none }], cursor := 0, cooldown := 60 }
    0 (fun _ => ProxyServer.Outcome.clientError) (by decide) (fun _ => trivial)
